import Mathlib

/-!
Shallow embedding of the `otel` tool entry point
(`tool/otel/main.go`) and its error-context package (`tool/errc`),
with theorems settling the specification claims about phase
determination, workspace initialization, error annotation, dispatch,
and fatal reporting.
-/

namespace Errc

/-- Model of Go's `map[string]string` as an association list with
upsert semantics (`m[k] = v` replaces the entry for `k` if present,
otherwise adds a new entry).  Go maps keep keys unique; that
invariant is expressed by `keysNodup` below. -/
def upsert : List (String × String) → String → String → List (String × String)
  | [], k, v => [(k, v)]
  | p :: t, k, v => if p.1 = k then (k, v) :: t else p :: upsert t k v

/-- Lookup of a key in the association-list model of a Go map. -/
def findVal (m : List (String × String)) (k : String) : Option String :=
  match m with
  | [] => none
  | p :: t => if p.1 = k then some p.2 else findVal t k

/-- The Go-map invariant: keys are pairwise distinct. -/
def keysNodup (m : List (String × String)) : Prop :=
  (m.map Prod.fst).Nodup

/-- Structure `errc.PlentifulError`: reason, creation-time backtrace (`Cause`),
and a key/value detail map. -/
structure PlentifulError where
  Reason : String
  Cause : String
  Details : List (String × String)
deriving DecidableEq

/-- Rendering `(e *PlentifulError) Error()`: `e.Reason + "\n" + e.Cause`. -/
def PlentifulError.ErrorString (e : PlentifulError) : String :=
  e.Reason ++ "\n" ++ e.Cause

/-- Constructor `errc.New(message)`: the backtrace captured by `debug.Stack()` is
an ambient effect, passed here as the explicit argument `backtrace`;
`Details` starts empty. -/
def New (message backtrace : String) : PlentifulError :=
  { Reason := message, Cause := backtrace, Details := [] }

/-- Method `(pe *PlentifulError) With(key, value)`: upsert into `Details`,
returning the (updated) error itself. -/
def PlentifulError.With (pe : PlentifulError) (key value : String) : PlentifulError :=
  { pe with Details := upsert pe.Details key value }

/-- A Go `error` value as seen by this tool: either a
`*errc.PlentifulError` or some foreign error with only a message. -/
inductive GoError where
  | plentiful (e : PlentifulError)
  | foreign (msg : String)
deriving DecidableEq

/-- Rendering `err.Error()` over the two error kinds. -/
def GoError.message : GoError → String
  | .plentiful e => e.ErrorString
  | .foreign m => m

/-- Function `errc.Adhere(err, key, value)`: type-switch on `*PlentifulError`;
upserts into its details, otherwise returns the error untouched. -/
def Adhere (err : GoError) (key value : String) : GoError :=
  match err with
  | .plentiful pe => .plentiful (pe.With key value)
  | .foreign m => .foreign m

end Errc

section ErrcLemmas

open Errc

theorem mem_keys_upsert (m : List (String × String)) (k v a : String)
    (ha : a ∈ (upsert m k v).map Prod.fst) :
    a = k ∨ a ∈ m.map Prod.fst := by
  induction m with
  | nil => simpa [upsert] using ha
  | cons p t ih =>
    by_cases hpk : p.1 = k
    · simp only [upsert, if_pos hpk, List.map_cons, List.mem_cons] at ha
      rcases ha with h1 | h2
      · exact Or.inl h1
      · exact Or.inr (List.mem_cons_of_mem _ h2)
    · simp only [upsert, if_neg hpk, List.map_cons, List.mem_cons] at ha
      rcases ha with h1 | h2
      · exact Or.inr (List.mem_cons.mpr (Or.inl h1))
      · rcases ih h2 with h3 | h4
        · exact Or.inl h3
        · exact Or.inr (List.mem_cons_of_mem _ h4)

theorem upsert_keysNodup (m : List (String × String)) (k v : String)
    (h : keysNodup m) : keysNodup (upsert m k v) := by
  induction m with
  | nil => simp [upsert, keysNodup]
  | cons p t ih =>
    unfold keysNodup at h ⊢
    simp only [List.map_cons, List.nodup_cons] at h
    by_cases hpk : p.1 = k
    · simp only [upsert, if_pos hpk, List.map_cons, List.nodup_cons]
      exact ⟨hpk ▸ h.1, h.2⟩
    · simp only [upsert, if_neg hpk, List.map_cons, List.nodup_cons]
      refine ⟨?_, ih h.2⟩
      intro hc
      rcases mem_keys_upsert t k v p.1 hc with h1 | h2
      · exact hpk h1
      · exact h.1 h2

theorem findVal_upsert_self (m : List (String × String)) (k v : String) :
    findVal (upsert m k v) k = some v := by
  induction m with
  | nil => simp [upsert, findVal]
  | cons p t ih =>
    by_cases hpk : p.1 = k
    · simp [upsert, if_pos hpk, findVal]
    · simp only [upsert, if_neg hpk, findVal]
      exact ih

theorem upsert_filter_self (m : List (String × String)) (k v : String)
    (h : keysNodup m) :
    (upsert m k v).filter (fun p => p.1 = k) = [(k, v)] := by
  induction m with
  | nil => simp [upsert, List.filter_cons]
  | cons p t ih =>
    unfold keysNodup at h
    simp only [List.map_cons, List.nodup_cons] at h
    by_cases hpk : p.1 = k
    · simp only [upsert, if_pos hpk]
      have hnone : t.filter (fun q => decide (q.1 = k)) = [] := by
        rw [List.filter_eq_nil_iff]
        intro q hq hc
        simp only [decide_eq_true_eq] at hc
        exact h.1 (hpk ▸ hc ▸ List.mem_map_of_mem Prod.fst hq)
      simp [List.filter_cons, hnone]
    · simp only [upsert, if_neg hpk, List.filter_cons]
      simp only [decide_eq_true_eq, if_neg hpk]
      exact ih h.2
end ErrcLemmas

namespace Tool

open Errc

/-- Modelled from the spec: `util.RunPhase`, whose `util` package
source is not part of this core; the spec fixes the phases as
Unset, Preprocess and Instrument. -/
inductive RunPhase where
  | PUnset
  | PPreprocess
  | PInstrument
deriving DecidableEq

/-- Modelled from the spec: the phase constants double as the names of
the two workspace subdirectories (`main.go` iterates
`[]string{util.PPreprocess, util.PInstrument}` as subdirectory
names). -/
def RunPhase.str : RunPhase → String
  | .PUnset => "unset"
  | .PPreprocess => "preprocess"
  | .PInstrument => "instrument"

def SubcommandSet : String := "set"
def SubcommandGo : String := "go"
def SubcommandVersion : String := "version"
def SubcommandRemix : String := "remix"

/-- Model of `strings.HasSuffix(s, suffix)`, on the character lists of the two
strings. -/
def hasSuffix (s suffix : String) : Bool :=
  suffix.data.isSuffixOf s.data

/-- The phase-determination switch of `initEnv` (`main.go` lines
84-93), as a function of the arguments after the tool name: a first
argument ending in `"go"` selects Preprocess, a first argument equal
to `"remix"` selects Instrument, anything else leaves the phase at
its initial value Unset. -/
def determinePhase (args : List String) : RunPhase :=
  match args with
  | [] => RunPhase.PUnset
  | a :: _ =>
    if hasSuffix a SubcommandGo then RunPhase.PPreprocess
    else if a = SubcommandRemix then RunPhase.PInstrument
    else RunPhase.PUnset

/-- A filesystem entry: nothing, a directory, or a file. -/
inductive Entry where
  | absent
  | dir
  | file
deriving DecidableEq

/-- A path is a list of components. -/
abbrev Path := List String

/-- Filesystem state: what lives at each path. -/
def FS := Path → Entry

/-- Failure oracle for the `os` filesystem calls: which `MkdirAll` and
`RemoveAll` invocations fail.  Success and failure of these calls
depend on the ambient OS, so they are injected as an oracle. -/
structure FsOracle where
  mkdirFails : Path → Bool
  removeFails : Path → Bool

/-- Model of `os.MkdirAll(p)`: on success, `p` and all its ancestors become
directories. -/
def osMkdirAll (o : FsOracle) (p : Path) (fs : FS) : Except String FS :=
  if o.mkdirFails p then
    Except.error ("mkdir failed: " ++ String.intercalate "/" p)
  else
    Except.ok (fun q => if q.isPrefixOf p then Entry.dir else fs q)

/-- Model of `os.RemoveAll(p)`: on success, `p` and everything under it is
gone. -/
def osRemoveAll (o : FsOracle) (p : Path) (fs : FS) : Except String FS :=
  if o.removeFails p then
    Except.error ("remove failed: " ++ String.intercalate "/" p)
  else
    Except.ok (fun q => if p.isPrefixOf q then Entry.absent else fs q)

/-- Modelled from the spec: `util.TempBuildDir`, the root of the
shared temporary workspace; its concrete name is irrelevant to the
claims, only that it is one fixed directory. -/
def TempBuildDir : Path := [".otel-build"]

/-- Modelled from the spec: `util.GetTempBuildDirWith(subdir)`, the
named subdirectory under the workspace root. -/
def GetTempBuildDirWith (subdir : String) : Path := TempBuildDir ++ [subdir]

/-- Modelled from the spec: `util.PathNotExists(p)`. -/
def PathNotExists (fs : FS) (p : Path) : Bool := fs p = Entry.absent

/-- Run a fallible filesystem call and discard its error, as the Go
code does with `_ = os.RemoveAll(...)` and `_ = os.MkdirAll(...)`: on
failure the state is kept as it was. -/
def ignoreErr (r : Except String FS) (fallback : FS) : FS :=
  match r with
  | Except.ok fs => fs
  | Except.error _ => fallback

/-- Body of the subdirectory loop of `initTempDir` (`main.go` lines
72-75): remove the named subdirectory recursively and recreate it,
both results discarded. -/
def recreateSubdir (o : FsOracle) (subdir : String) (fs : FS) : FS :=
  let d := GetTempBuildDirWith subdir
  let fs1 := ignoreErr (osRemoveAll o d fs) fs
  ignoreErr (osMkdirAll o d fs1) fs1

/-- Translation of `initTempDir` (`main.go` lines 57-78): a no-op
under Instrument; otherwise create the workspace root if absent
(failure is returned as an error wrapped by the caller), then run the
remove/recreate loop over the two named subdirectories. -/
def initTempDir (phase : RunPhase) (o : FsOracle) (fs : FS) : Except String FS :=
  if phase = RunPhase.PInstrument then
    Except.ok fs
  else
    match (if PathNotExists fs TempBuildDir then osMkdirAll o TempBuildDir fs
           else Except.ok fs) with
    | Except.error e => Except.error e
    | Except.ok fs1 =>
      Except.ok (recreateSubdir o RunPhase.PInstrument.str
        (recreateSubdir o RunPhase.PPreprocess.str fs1))

/-- Both named subdirectories exist as directories and are empty:
every proper descendant is absent. -/
def cleanSubdirs (fs : FS) : Prop :=
  fs (GetTempBuildDirWith RunPhase.PPreprocess.str) = Entry.dir ∧
  fs (GetTempBuildDirWith RunPhase.PInstrument.str) = Entry.dir ∧
  ∀ p : Path, p ≠ [] →
    fs (GetTempBuildDirWith RunPhase.PPreprocess.str ++ p) = Entry.absent ∧
    fs (GetTempBuildDirWith RunPhase.PInstrument.str ++ p) = Entry.absent

end Tool

namespace Tool

open Errc

/-- The ambient facts `fatal` reads (`os.Args`, the logger path, the
`PWD` variable, `runtime`/`config` identity strings), assembled as an
explicit context. -/
structure Env where
  args : List String
  loggerPath : String
  workDir : String
  goosGoarch : String
  runtimeVersion : String
  toolVersion : String
deriving DecidableEq

/-- Model of `fmt.Sprintf` with format `%-11s`: left-justified padding to width 11. -/
def padLabel (s : String) : String :=
  s ++ String.mk (List.replicate (11 - s.length) ' ')

/-- One `fmt.Sprintf("%-11s: %s\n", k, v)` line of the fatal report. -/
def kvLine (k v : String) : String :=
  padLabel k ++ ": " ++ v ++ "\n"

/-- Translation of `fatal` (`main.go` lines 111-131): the report handed to
`util.LogFatal`, built exactly as the Go code concatenates it. -/
def fatalMessage (env : Env) (err : GoError) : String :=
  let m1 := "===== Environments =====\n"
    ++ kvLine "command" (String.intercalate " " env.args)
    ++ kvLine "errorLog" env.loggerPath
    ++ kvLine "workDir" env.workDir
    ++ kvLine "toolchain"
        (env.goosGoarch ++ ", " ++ env.runtimeVersion ++ ", " ++ env.toolVersion)
  let m2 := m1 ++
    (match err with
     | .plentiful pe =>
       if pe.Details.length > 0 then
         String.join (pe.Details.map (fun p => kvLine p.1 p.2))
       else ""
     | .foreign _ => "")
  let m3 := m2 ++ "\n===== Fatal Error ======\n"
  let m4 := m3 ++
    (match err with
     | .plentiful pe => "\n" ++ pe.Reason
     | .foreign _ => "")
  m4

/-- Written from the spec's words (§4.4, item 1): the environment
block — command line, diagnostic-log path, working directory and a
toolchain identity line, each as a fixed-width label followed by its
value. -/
def specEnvBlock (env : Env) : String :=
  "===== Environments =====\n"
  ++ kvLine "command" (String.intercalate " " env.args)
  ++ kvLine "errorLog" env.loggerPath
  ++ kvLine "workDir" env.workDir
  ++ kvLine "toolchain"
      (env.goosGoarch ++ ", " ++ env.runtimeVersion ++ ", " ++ env.toolVersion)

/-- Written from the spec's words (§4.4, item 2): one label/value line
per detail entry. -/
def specDetailLines (details : List (String × String)) : String :=
  String.join (details.map (fun p => kvLine p.1 p.2))

/-- Written from the spec's words (§4.4, item 3): a trailing section
containing only the error's reason. -/
def specTrailing (reason : String) : String :=
  "\n===== Fatal Error ======\n\n" ++ reason

/-- Results of the four external handlers and of
`config.InitConfig`, which are collaborators outside this core
(`none` = success). -/
structure Handlers where
  version : Option GoError
  setCfg : Option GoError
  go : Option GoError
  remix : Option GoError
  initConfig : Option GoError

/-- Observable outcome of one `main` run: whether the usage text was
printed, the exit status, what was written to the error stream, and
the fatal report if `fatal` was invoked (`none` = FatalReporter never
ran). -/
structure Outcome where
  usagePrinted : Bool
  exitCode : Nat
  stderrOut : String
  fatalReport : Option String
deriving DecidableEq

/-- Translation of `initEnv` (`main.go` lines 80-109): determine the phase from the
subcommand, run `initTempDir` (a failure is wrapped by `errc.New`),
then run `config.InitConfig` only in the Preprocess or Instrument
phase.  Returns the error (if any) and the filesystem state. -/
def initEnvModel (sub : String) (o : FsOracle) (fs : FS) (bt : String)
    (cfgRes : Option GoError) : Option GoError × FS :=
  let phase := determinePhase [sub]
  match initTempDir phase o fs with
  | Except.error msg => (some (.plentiful (New msg bt)), fs)
  | Except.ok fs1 =>
    if phase = RunPhase.PPreprocess ∨ phase = RunPhase.PInstrument then
      (cfgRes, fs1)
    else
      (none, fs1)

/-- Normal termination (`main` returns, exit status 0). -/
def okOutcome : Outcome := ⟨false, 0, "", none⟩

/-- Usage text printed, then normal termination with status 0
(both the missing-argument path and the default switch branch). -/
def usageOutcome : Outcome := ⟨true, 0, "", none⟩

/-- Outcome when `fatal(err)` is invoked: the report goes through `util.LogFatal`,
which terminates with a non-zero status (modelled as 1; the spec
leaves the exact code to the logging facility). -/
def fatalOutcome (env : Env) (err : GoError) : Outcome :=
  ⟨false, 1, "", some (fatalMessage env err)⟩

/-- The common tail of `main`: `if err != nil { fatal(err) }`. -/
def handlerOutcome (env : Env) (r : Option GoError) : Outcome :=
  match r with
  | none => okOutcome
  | some e => fatalOutcome env e

/-- Translation of `main` (`main.go` lines 133-167): usage on a missing argument;
`initEnv`; the subcommand switch with the special `remix` failure
path; any remaining error goes to `fatal`. -/
def mainRun (args : List String) (o : FsOracle) (fs : FS) (bt : String)
    (h : Handlers) (env : Env) : Outcome :=
  match args with
  | [] => usageOutcome
  | [_] => usageOutcome
  | _ :: sub :: _ =>
    match initEnvModel sub o fs bt h.initConfig with
    | (some e, _) => fatalOutcome env e
    | (none, _) =>
      if sub = SubcommandVersion then handlerOutcome env h.version
      else if sub = SubcommandSet then handlerOutcome env h.setCfg
      else if sub = SubcommandGo then handlerOutcome env h.go
      else if sub = SubcommandRemix then
        match h.remix with
        | none => okOutcome
        | some e => ⟨false, 1, e.message ++ "\n", none⟩
      else usageOutcome

end Tool

section Helpers

open Errc Tool

theorem isPrefixOf_append_self (l p : List String) : l.isPrefixOf (l ++ p) = true := by
  induction l with
  | nil => simp [List.isPrefixOf]
  | cons a t ih => simp [List.isPrefixOf, ih]

theorem append_ne_nil_not_isPrefixOf (l p : List String) (hp : p ≠ []) :
    (l ++ p).isPrefixOf l = false := by
  induction l with
  | nil =>
    cases p with
    | nil => exact absurd rfl hp
    | cons a t => simp [List.isPrefixOf]
  | cons a t ih => simp [List.isPrefixOf, ih]

theorem initTempDir_instrument_eq (o : FsOracle) (fs : FS) :
    initTempDir RunPhase.PInstrument o fs = Except.ok fs := rfl

theorem initTempDir_ok_of_root (phase : RunPhase) (o : FsOracle) (fs : FS)
    (hmkR : o.mkdirFails TempBuildDir = false) :
    ∃ fs1, initTempDir phase o fs = Except.ok fs1 := by
  by_cases hph : phase = RunPhase.PInstrument
  · exact ⟨fs, by rw [hph, initTempDir_instrument_eq]⟩
  · unfold initTempDir
    rw [if_neg hph]
    by_cases hex : PathNotExists fs TempBuildDir = true
    · rw [if_pos hex]
      unfold osMkdirAll
      rw [if_neg (by simp [hmkR])]
      exact ⟨_, rfl⟩
    · rw [if_neg hex]
      exact ⟨_, rfl⟩

end Helpers

section Claims

open Errc Tool

/-- C3: phase determination is purely syntactic over the first
argument after the tool name: a first argument ending in the `go`
subcommand name yields Preprocess, a first argument equal to the
`remix` subcommand name yields Instrument, any other first argument
leaves the phase Unset; in particular `["go", "build"]` yields
Preprocess, `["remix"]` yields Instrument and `["version"]` yields
Unset. -/
theorem determinePhase_classification (a : String) (rest : List String) :
    (hasSuffix a SubcommandGo = true →
      determinePhase (a :: rest) = RunPhase.PPreprocess) ∧
    (a = SubcommandRemix → determinePhase (a :: rest) = RunPhase.PInstrument) ∧
    (hasSuffix a SubcommandGo = false → a ≠ SubcommandRemix →
      determinePhase (a :: rest) = RunPhase.PUnset) ∧
    determinePhase ["go", "build"] = RunPhase.PPreprocess ∧
    determinePhase ["remix"] = RunPhase.PInstrument ∧
    determinePhase ["version"] = RunPhase.PUnset := by
  refine ⟨?_, ?_, ?_, by decide, by decide, by decide⟩
  · intro hs
    simp [determinePhase, hs]
  · intro he
    subst he
    simp [determinePhase, show hasSuffix SubcommandRemix SubcommandGo = false from by decide]
  · intro hs hne
    simp [determinePhase, hs, hne]

theorem determinePhase_classification_witness :
    determinePhase ["cargo"] = RunPhase.PPreprocess ∧
    determinePhase ["remix", "build"] = RunPhase.PInstrument ∧
    determinePhase ["help"] = RunPhase.PUnset :=
  ⟨(determinePhase_classification "cargo" []).1 (by decide),
   (determinePhase_classification "remix" ["build"]).2.1 (by decide),
   (determinePhase_classification "help" []).2.2.1 (by decide) (by decide)⟩

/-- C4: under the Instrument phase, `initTempDir` succeeds immediately
and returns the filesystem unchanged: it never creates, deletes, or
resets the workspace root or its subdirectories. -/
theorem initTempDir_instrument_noop (o : FsOracle) (fs : FS) :
    initTempDir RunPhase.PInstrument o fs = Except.ok fs :=
  initTempDir_instrument_eq o fs

/-- C6: `Adhere` never fails; on a `PlentifulError` it upserts the
pair into the details of that same error, leaving reason and
backtrace untouched, and on any other error kind it returns the input
unchanged. -/
theorem adhere_behavior (k v : String) :
    (∀ pe : PlentifulError,
      Adhere (GoError.plentiful pe) k v =
        GoError.plentiful { pe with Details := upsert pe.Details k v } ∧
      findVal (upsert pe.Details k v) k = some v) ∧
    (∀ m : String, Adhere (GoError.foreign m) k v = GoError.foreign m) :=
  ⟨fun pe => ⟨rfl, findVal_upsert_self pe.Details k v⟩, fun _ => rfl⟩

/-- C7: `With` is an idempotent upsert: attaching the same key twice
leaves exactly one entry for that key, holding the latest value, and
the error's reason and backtrace are untouched. -/
theorem attach_idempotent_upsert (pe : PlentifulError) (k v1 v2 : String)
    (hkeys : keysNodup pe.Details) :
    ((pe.With k v1).With k v2).Details.filter (fun p => p.1 = k) = [(k, v2)] ∧
    findVal ((pe.With k v1).With k v2).Details k = some v2 ∧
    ((pe.With k v1).With k v2).Reason = pe.Reason ∧
    ((pe.With k v1).With k v2).Cause = pe.Cause := by
  refine ⟨?_, ?_, rfl, rfl⟩
  · exact upsert_filter_self _ _ _ (upsert_keysNodup _ _ _ hkeys)
  · exact findVal_upsert_self _ _ _

theorem attach_idempotent_upsert_witness :
    (((New "link error" "trace").With "stage" "a").With "stage" "b").Details.filter
      (fun p => p.1 = "stage") = [("stage", "b")] :=
  (attach_idempotent_upsert (New "link error" "trace") "stage" "a" "b"
    (by simp [New, keysNodup])).1

end Claims

section WorkspaceHelpers

open Errc Tool

theorem recreateSubdir_success (o : FsOracle) (s : String) (fs : FS)
    (hrm : o.removeFails (GetTempBuildDirWith s) = false)
    (hmk : o.mkdirFails (GetTempBuildDirWith s) = false) (q : Path) :
    recreateSubdir o s fs q =
      if q.isPrefixOf (GetTempBuildDirWith s) then Entry.dir
      else if (GetTempBuildDirWith s).isPrefixOf q then Entry.absent
      else fs q := by
  simp only [recreateSubdir, osRemoveAll, osMkdirAll, ignoreErr, hrm, hmk,
    Bool.false_eq_true, if_false]

theorem initTempDir_nonInstrument_clean (phase : RunPhase) (o : FsOracle) (fs : FS)
    (hph : phase ≠ RunPhase.PInstrument)
    (hmkR : o.mkdirFails TempBuildDir = false)
    (hmkP : o.mkdirFails (GetTempBuildDirWith RunPhase.PPreprocess.str) = false)
    (hmkI : o.mkdirFails (GetTempBuildDirWith RunPhase.PInstrument.str) = false)
    (hrmP : o.removeFails (GetTempBuildDirWith RunPhase.PPreprocess.str) = false)
    (hrmI : o.removeFails (GetTempBuildDirWith RunPhase.PInstrument.str) = false) :
    ∃ fs1, initTempDir phase o fs = Except.ok fs1 ∧ cleanSubdirs fs1 ∧
      fs1 TempBuildDir = Entry.dir := by
  have hok : ∃ fs0, (if PathNotExists fs TempBuildDir then osMkdirAll o TempBuildDir fs
      else Except.ok fs) = Except.ok fs0 := by
    by_cases hex : PathNotExists fs TempBuildDir = true
    · rw [if_pos hex]
      unfold osMkdirAll
      rw [if_neg (by simp [hmkR])]
      exact ⟨_, rfl⟩
    · rw [if_neg hex]
      exact ⟨fs, rfl⟩
  obtain ⟨fs0, hfs0⟩ := hok
  have hP := recreateSubdir_success o RunPhase.PPreprocess.str fs0 hrmP hmkP
  have hI := recreateSubdir_success o RunPhase.PInstrument.str
    (recreateSubdir o RunPhase.PPreprocess.str fs0) hrmI hmkI
  refine ⟨recreateSubdir o RunPhase.PInstrument.str
    (recreateSubdir o RunPhase.PPreprocess.str fs0), ?_, ?_, ?_⟩
  · unfold initTempDir
    rw [if_neg hph, hfs0]
  · refine ⟨?_, ?_, ?_⟩
    · rw [hI, if_neg (by decide), if_neg (by decide), hP, if_pos (by decide)]
    · rw [hI, if_pos (by decide)]
    · intro p hp
      constructor
      · have c1 : ((GetTempBuildDirWith RunPhase.PPreprocess.str ++ p).isPrefixOf
            (GetTempBuildDirWith RunPhase.PInstrument.str)) = false := by
          simp [GetTempBuildDirWith, TempBuildDir, RunPhase.str, List.isPrefixOf]
        have c2 : ((GetTempBuildDirWith RunPhase.PInstrument.str).isPrefixOf
            (GetTempBuildDirWith RunPhase.PPreprocess.str ++ p)) = false := by
          simp [GetTempBuildDirWith, TempBuildDir, RunPhase.str, List.isPrefixOf]
        rw [hI, if_neg (by simp [c1]), if_neg (by simp [c2]), hP,
          if_neg (by simp [append_ne_nil_not_isPrefixOf _ p hp]),
          if_pos (isPrefixOf_append_self _ p)]
      · rw [hI, if_neg (by simp [append_ne_nil_not_isPrefixOf _ p hp]),
          if_pos (isPrefixOf_append_self _ p)]
  · rw [hI, if_pos (by decide)]

end WorkspaceHelpers

section ClaimsWorkspace

open Errc Tool

/-- C5: when the phase is not Instrument, `initTempDir` (with the
relevant filesystem calls succeeding) succeeds, creates the workspace
root, and leaves both named subdirectories present and empty; it is
idempotent in the sense that a second invocation from any
intermediate state, including one where files were written in the
meantime, again succeeds and again leaves both subdirectories present
and empty. -/
theorem initTempDir_preprocess_idempotent (phase : RunPhase) (o : FsOracle) (fs : FS)
    (hph : phase ≠ RunPhase.PInstrument)
    (hmkR : o.mkdirFails TempBuildDir = false)
    (hmkP : o.mkdirFails (GetTempBuildDirWith RunPhase.PPreprocess.str) = false)
    (hmkI : o.mkdirFails (GetTempBuildDirWith RunPhase.PInstrument.str) = false)
    (hrmP : o.removeFails (GetTempBuildDirWith RunPhase.PPreprocess.str) = false)
    (hrmI : o.removeFails (GetTempBuildDirWith RunPhase.PInstrument.str) = false) :
    (∃ fs1, initTempDir phase o fs = Except.ok fs1 ∧ cleanSubdirs fs1 ∧
      fs1 TempBuildDir = Entry.dir) ∧
    (∀ mutate : FS → FS, ∀ fs1, initTempDir phase o fs = Except.ok fs1 →
      ∃ fs2, initTempDir phase o (mutate fs1) = Except.ok fs2 ∧ cleanSubdirs fs2) := by
  constructor
  · exact initTempDir_nonInstrument_clean phase o fs hph hmkR hmkP hmkI hrmP hrmI
  · intro mutate fs1 _
    obtain ⟨fs2, h1, h2, _⟩ :=
      initTempDir_nonInstrument_clean phase o (mutate fs1) hph hmkR hmkP hmkI hrmP hrmI
    exact ⟨fs2, h1, h2⟩

theorem initTempDir_preprocess_idempotent_witness :
    ∃ fs1, initTempDir RunPhase.PUnset ⟨fun _ => false, fun _ => false⟩
      (fun _ => Entry.absent) = Except.ok fs1 ∧ cleanSubdirs fs1 ∧
      fs1 TempBuildDir = Entry.dir :=
  (initTempDir_preprocess_idempotent RunPhase.PUnset ⟨fun _ => false, fun _ => false⟩
    (fun _ => Entry.absent) (by decide) rfl rfl rfl rfl rfl).1

/-- C10: in every phase, `initTempDir` returns an error only when the
workspace root was absent and creating it failed; and success does
not by itself guarantee the subdirectories exist, as the removal and
recreation results are discarded: there is a run that succeeds yet
leaves the preprocess subdirectory missing. -/
theorem initTempDir_error_only_root :
    (∀ (phase : RunPhase) (o : FsOracle) (fs : FS) (e : String),
      initTempDir phase o fs = Except.error e →
      PathNotExists fs TempBuildDir = true ∧ o.mkdirFails TempBuildDir = true) ∧
    (∃ (o : FsOracle) (fs fs1 : FS),
      initTempDir RunPhase.PUnset o fs = Except.ok fs1 ∧
      fs1 (GetTempBuildDirWith RunPhase.PPreprocess.str) ≠ Entry.dir) := by
  constructor
  · intro phase o fs e h
    by_cases hph : phase = RunPhase.PInstrument
    · rw [hph, initTempDir_instrument_eq] at h
      exact absurd h (by simp)
    · unfold initTempDir at h
      rw [if_neg hph] at h
      by_cases hex : PathNotExists fs TempBuildDir = true
      · rw [if_pos hex] at h
        by_cases hmk : o.mkdirFails TempBuildDir = true
        · exact ⟨hex, hmk⟩
        · unfold osMkdirAll at h
          rw [if_neg hmk] at h
          simp at h
      · rw [if_neg hex] at h
        simp at h
  · exact ⟨⟨fun p => !(decide (p = TempBuildDir)), fun _ => false⟩,
      fun _ => Entry.absent, _, rfl, by decide⟩

theorem initTempDir_error_only_root_witness :
    PathNotExists (fun _ => Entry.absent) TempBuildDir = true ∧
    FsOracle.mkdirFails ⟨fun _ => true, fun _ => false⟩ TempBuildDir = true :=
  initTempDir_error_only_root.1 RunPhase.PUnset ⟨fun _ => true, fun _ => false⟩
    (fun _ => Entry.absent) _ rfl

end ClaimsWorkspace

section ClaimsReporting

open Errc Tool

/-- C1: for a `PlentifulError`, the fatal report is exactly the
environment block, then one label/value line per detail entry, then a
trailing section containing only the error's reason; the captured
backtrace does not influence the report at all. -/
theorem fatal_report_structure (env : Env) (e : PlentifulError) :
    fatalMessage env (GoError.plentiful e) =
      specEnvBlock env ++ specDetailLines e.Details ++ specTrailing e.Reason ∧
    ∀ c : String,
      fatalMessage env (GoError.plentiful { e with Cause := c }) =
        fatalMessage env (GoError.plentiful e) := by
  obtain ⟨r, cz, d⟩ := e
  have key : ∀ s : String,
      "\n===== Fatal Error ======\n" ++ ("\n" ++ s)
        = "\n===== Fatal Error ======\n\n" ++ s := by
    intro s
    have hjoin : ("\n===== Fatal Error ======\n" ++ "\n" : String)
        = "\n===== Fatal Error ======\n\n" := rfl
    rw [← String.append_assoc, hjoin]
  constructor
  · unfold fatalMessage specEnvBlock specDetailLines specTrailing
    cases d with
    | nil => simp [String.join, String.append_assoc, key]
    | cons p t => simp [String.append_assoc, key]
  · intro c
    rfl

/-- C9: for a foreign (non-diagnostic) error, the fatal report is
just the environment block followed by the fatal-error header: no
detail lines, no message text, and the foreign error's own message
never appears (the report does not depend on it). -/
theorem fatal_foreign_no_message (env : Env) (m : String) :
    fatalMessage env (GoError.foreign m) =
      specEnvBlock env ++ "\n===== Fatal Error ======\n" ∧
    ∀ msg : String,
      fatalMessage env (GoError.foreign msg) = fatalMessage env (GoError.foreign m) := by
  constructor
  · unfold fatalMessage specEnvBlock
    simp [String.append_assoc]
  · intro msg
    rfl

end ClaimsReporting

section ClaimsDispatch

open Errc Tool

/-- C2: when the `remix` handler fails with a `PlentifulError`, the
dispatcher writes the error's full rendered message (reason, newline,
backtrace) plus a trailing newline to the error stream and exits with
status 1; `fatal` is never invoked, so no environment block is
emitted. -/
theorem remix_failure_bypasses_fatal (tool : String) (rest : List String)
    (o : FsOracle) (fs : FS) (bt : String) (h : Handlers) (env : Env)
    (pe : PlentifulError)
    (hrem : h.remix = some (GoError.plentiful pe))
    (hcfg : h.initConfig = none) :
    mainRun (tool :: SubcommandRemix :: rest) o fs bt h env =
      ⟨false, 1, pe.Reason ++ "\n" ++ pe.Cause ++ "\n", none⟩ := by
  have hinit : initEnvModel SubcommandRemix o fs bt h.initConfig = (none, fs) := by
    rw [hcfg]
    simp only [initEnvModel]
    rw [show determinePhase [SubcommandRemix] = RunPhase.PInstrument from by decide,
      initTempDir_instrument_eq]
    simp
  simp only [mainRun, hinit]
  simp [hrem, GoError.message, PlentifulError.ErrorString, String.append_assoc]
  rw [if_neg (by decide), if_neg (by decide), if_neg (by decide)]

theorem remix_failure_bypasses_fatal_witness :
    mainRun ["otel", "remix"] ⟨fun _ => false, fun _ => false⟩ (fun _ => Entry.absent)
      "" ⟨none, none, none, some (GoError.plentiful ⟨"compile failed", "trace", []⟩), none⟩
      ⟨[], "", "", "", "", ""⟩ =
      ⟨false, 1, "compile failed" ++ "\n" ++ "trace" ++ "\n", none⟩ :=
  remix_failure_bypasses_fatal "otel" [] ⟨fun _ => false, fun _ => false⟩
    (fun _ => Entry.absent) ""
    ⟨none, none, none, some (GoError.plentiful ⟨"compile failed", "trace", []⟩), none⟩
    ⟨[], "", "", "", "", ""⟩ ⟨"compile failed", "trace", []⟩ rfl rfl

/-- C8: with no subcommand argument, or with a subcommand that is
none of version, set, go, remix, the program prints the usage text
and terminates with status 0; no error path is taken and the fatal
reporter is not invoked (given that environment initialization
succeeds, i.e. creating the workspace root does not fail and the
configuration loads). -/
theorem dispatch_usage_success (tool sub : String) (rest : List String)
    (o : FsOracle) (fs : FS) (bt : String) (h : Handlers) (env : Env)
    (hmkR : o.mkdirFails TempBuildDir = false)
    (hcfg : h.initConfig = none)
    (h1 : sub ≠ SubcommandVersion) (h2 : sub ≠ SubcommandSet)
    (h3 : sub ≠ SubcommandGo) (h4 : sub ≠ SubcommandRemix) :
    mainRun (tool :: sub :: rest) o fs bt h env = usageOutcome ∧
    mainRun [tool] o fs bt h env = usageOutcome ∧
    mainRun [] o fs bt h env = usageOutcome := by
  refine ⟨?_, rfl, rfl⟩
  obtain ⟨fs1, hfs1⟩ := initTempDir_ok_of_root (determinePhase [sub]) o fs hmkR
  have hinit : initEnvModel sub o fs bt h.initConfig = (none, fs1) := by
    rw [hcfg]
    simp only [initEnvModel, hfs1, ite_self]
  simp only [mainRun, hinit]
  rw [if_neg h1, if_neg h2, if_neg h3, if_neg h4]

theorem dispatch_usage_success_witness :
    mainRun ["otel", "help"] ⟨fun _ => false, fun _ => false⟩ (fun _ => Entry.absent)
      "" ⟨none, none, none, none, none⟩ ⟨[], "", "", "", "", ""⟩ = usageOutcome ∧
    mainRun ["otel"] ⟨fun _ => false, fun _ => false⟩ (fun _ => Entry.absent)
      "" ⟨none, none, none, none, none⟩ ⟨[], "", "", "", "", ""⟩ = usageOutcome ∧
    mainRun [] ⟨fun _ => false, fun _ => false⟩ (fun _ => Entry.absent)
      "" ⟨none, none, none, none, none⟩ ⟨[], "", "", "", "", ""⟩ = usageOutcome :=
  dispatch_usage_success "otel" "help" [] ⟨fun _ => false, fun _ => false⟩
    (fun _ => Entry.absent) "" ⟨none, none, none, none, none⟩ ⟨[], "", "", "", "", ""⟩
    rfl rfl (by decide) (by decide) (by decide) (by decide)

end ClaimsDispatch
